import Mathlib

/-!
Shallow embedding of `src/scrapers/scraper.py` (apertium/family-visualizations).

Strings are modelled by Lean `String`; the character-level operations the
script performs (`split`, `strip`, slicing, substring tests, the two regular
expressions) are implemented here over `String.data` so that every definition
is executable and provable by structural induction.  All I/O (git subprocess
walker, HTTP fetches, the two external stem counters, the stats service and
the wiki page) is passed in as oracle functions; a counting failure (a
`SystemExit` from the lexc counter, or the `-1` sentinel from the dix counter)
is modelled as `none`.  A Python crash (uncaught exception / NameError from a
loop that never bound its variable) is modelled as an outer `none`.
-/

namespace Scraper

/-- A parsed commit record as appended to a history:
`{"sha": ..., "author": ..., "date": ..., "stems": ...}`. -/
structure CommitRecord where
  sha : String
  author : String
  date : String
  stems : Nat
deriving DecidableEq

/-- One entry of a persisted per-language JSON file:
`{"name": ..., "history": [...]}`. -/
structure EntityData where
  name : String
  history : List CommitRecord
deriving DecidableEq

/-- A package descriptor from the stats service: `{"name": ..., "topics": [...]}`. -/
structure Package where
  name : String
  topics : List String
deriving DecidableEq

/-- One statistic from the stats service: `{"stat_kind": ..., "value": ...}`. -/
structure Stat where
  stat_kind : String
  value : Nat
deriving DecidableEq

/-- A contributor entry `{"user": ..., "value": ...}` of `monoData`. -/
structure Contributor where
  user : String
  value : Nat
deriving DecidableEq

/-- A row of the scraped wiki table: `nameText` models `row[0][0][0].text`,
`cells` the list of the row's cell texts indexed as `row[i].text`. -/
structure WikiRow where
  nameText : String
  cells : List String
deriving DecidableEq

/-- An output record of `monoData`. -/
structure MonoEntry where
  lang : String
  state : String
  stems : Nat
  location : String
  contributors : List Contributor
deriving DecidableEq

/-- An output record of `pairData`: `{"langs": ..., "location": ..., "stems": ...}`. -/
structure PairEntry where
  langs : List String
  location : String
  stems : Nat
deriving DecidableEq

/-- `pairLocations = ["incubator", "nursery", "staging", "trunk"]`. -/
def pairLocations : List String := ["incubator", "nursery", "staging", "trunk"]

/-- `langLocations = ["languages", "incubator"]`. -/
def langLocations : List String := ["languages", "incubator"]

/-- `rmPrefix`: removes the `apertium-` prefix, `word[len("apertium-"):]`. -/
def rmPrefix (word : String) : String := String.mk (word.data.drop 9)

/-- Python `str.split` on the two-character separator `"<>"` (char-list core). -/
def splitAngles : List Char → List (List Char)
  | [] => [[]]
  | '<' :: '>' :: rest => [] :: splitAngles rest
  | c :: rest =>
    match splitAngles rest with
    | [] => [[c]]
    | h :: t => (c :: h) :: t

/-- Python `str.split` on a single separator character. -/
def splitOnChar (sep : Char) : List Char → List (List Char)
  | [] => [[]]
  | c :: rest =>
    if c = sep then [] :: splitOnChar sep rest
    else
      match splitOnChar sep rest with
      | [] => [[c]]
      | h :: t => (c :: h) :: t

/-- `pairName.split("-")`. -/
def splitDash (s : String) : List String := (splitOnChar '-' s.data).map String.mk

/-- Python `str.strip()` (whitespace from both ends). -/
def strTrim (s : String) : String :=
  String.mk (((s.data.dropWhile Char.isWhitespace).reverse.dropWhile Char.isWhitespace).reverse)

/-- The fields of one walker line, `commit.split("<>")`. -/
def lineParts (line : String) : List String := (splitAngles line.data).map String.mk

/-- `data[0]` of a walker line: the commit sha.  The walker's
`--format=%H<>%aN<>%aI<>` guarantees four fields on every real line. -/
def shaOf (line : String) : String := (lineParts line).getD 0 ""

/-- `data[1]` of a walker line: the author. -/
def authorOf (line : String) : String := (lineParts line).getD 1 ""

/-- `data[2]` of a walker line: the ISO date. -/
def dateOf (line : String) : String := (lineParts line).getD 2 ""

/-- `data[3]` of a walker line: the path of the tracked file at that commit. -/
def pathOf (line : String) : String := (lineParts line).getD 3 ""

/-- `any(commitData["sha"] == cm["sha"] for cm in history)`. -/
def seenSha (history : List CommitRecord) (sha : String) : Bool :=
  history.any (fun cm => sha == cm.sha)

/-- The record appended for a successfully counted walker line. -/
def recOf (line : String) (stems : Nat) : CommitRecord :=
  { sha := shaOf line, author := authorOf line, date := dateOf line, stems := stems }

/-- The shared merge loop of `monoHistory` (lines 106-144) and `pairHistory`
(lines 204-228): for each walker line, skip it if its sha is already in the
history, otherwise fetch-and-count via `counter` at the raw-content URL
(`mkURL sha path`); on failure (`none`) skip, on success append the record. -/
def mergeCommits (counter : String → Option Nat) (mkURL : String → String → String) :
    List CommitRecord → List String → List CommitRecord
  | history, [] => history
  | history, line :: rest =>
    if seenSha history (shaOf line) then mergeCommits counter mkURL history rest
    else
      match counter (mkURL (shaOf line) (pathOf line)) with
      | none => mergeCommits counter mkURL history rest
      | some n => mergeCommits counter mkURL (history ++ [recOf line n]) rest

/-- Number of walker lines the merge loop skipped (already-seen sha, or
counting failure), mirroring `mergeCommits` step by step. -/
def skippedCount (counter : String → Option Nat) (mkURL : String → String → String) :
    List CommitRecord → List String → Nat
  | _, [] => 0
  | history, line :: rest =>
    if seenSha history (shaOf line) then 1 + skippedCount counter mkURL history rest
    else
      match counter (mkURL (shaOf line) (pathOf line)) with
      | none => 1 + skippedCount counter mkURL history rest
      | some n => skippedCount counter mkURL (history ++ [recOf line n]) rest

/-- Loading the prior history of entity `nm` from the persisted per-language
JSON file (lines 77-85 / 191-201).  `oldFile = none` models a missing or
unparsable file (`FileNotFoundError` / `JSONDecodeError`), caught and turned
into the empty history.  An empty JSON array leaves Python's `history`
variable unbound (`NameError`), modelled as `none` (crash); otherwise the
first entry whose `name` matches wins, and no match yields `[]` (set on the
last non-matching iteration). -/
def loadHistory (oldFile : Option (List EntityData)) (nm : String) :
    Option (List CommitRecord) :=
  match oldFile with
  | none => some []
  | some [] => none
  | some (d :: ds) =>
    match (d :: ds).find? (fun e => e.name == nm) with
    | some e => some e.history
    | none => some []

/-- `\w` of Python's `re` for the ASCII repository names in play. -/
def isWordChar (c : Char) : Bool := c.isAlphanum || c == '_'

/-- `re.match(r"apertium-\w+$", name)`: the whole name is `apertium-` followed
by one or more word characters. -/
def matchesMonoRE (name : String) : Bool :=
  "apertium-".data.isPrefixOf name.data &&
    (let rest := name.data.drop 9
     !rest.isEmpty && rest.all isWordChar)

/-- `re.match(r"apertium-\w+-\w+", name)`: a prefix match; since `-` is not a
word character, the first `\w+` necessarily matches the maximal word-character
run after `apertium-`, which must be non-empty and followed by `-` and at
least one word character. -/
def matchesPairRE (name : String) : Bool :=
  "apertium-".data.isPrefixOf name.data &&
    (let rest := name.data.drop 9
     !(rest.takeWhile isWordChar).isEmpty &&
       (match rest.dropWhile isWordChar with
        | c :: d :: _ => c == '-' && isWordChar d
        | _ => false))

/-- Python `needle in hay` substring test, over char lists. -/
def hasInfixCL (needle : List Char) : List Char → Bool
  | [] => needle.isEmpty
  | h :: t => needle.isPrefixOf (h :: t) || hasInfixCL needle t

/-- `suffix.replace(".", "")`. -/
def stripDots (s : String) : String := String.mk (s.data.filter (fun c => !(c == '.')))

/-- The three recognized dictionary extensions (`fileExt`, line 69). -/
def recognizedExts : List String := [".lexc", ".dix", ".metadix"]

/-- `fileExt` (lines 61-71): `files` is the list of suffixes of the sorted
glob matches `apertium-X.X.*`; the first recognized suffix wins (dot
stripped), otherwise `"unknown"`. -/
def fileExt (files : List String) : String :=
  match files.find? (fun f => recognizedExts.contains f) with
  | some f => stripDots f
  | none => "unknown"

/-- `monoData`'s file-type label (lines 248-253): `lexc` stays, `dix` becomes
`monodix`, everything else (including `unknown`) becomes `metamonodix`. -/
def fileTypeOf (extension : String) : String :=
  if extension == "lexc" then extension
  else if extension == "dix" then "monodix"
  else "metamonodix"

/-- The raw-content URL of `monoHistory` (lines 117-119): note `data[3].strip()`. -/
def monoURL (language sha path : String) : String :=
  "https://raw.githubusercontent.com/apertium/apertium-" ++ language ++ "/" ++ sha
    ++ "/" ++ strTrim path

/-- The raw-content URL of `pairHistory` (lines 215-217): `data[3]` unstripped. -/
def pairURL (pairName sha path : String) : String :=
  "https://raw.githubusercontent.com/apertium/apertium-" ++ pairName ++ "/" ++ sha
    ++ "/" ++ path

/-- Per-commit counting of `monoHistory` (lines 122-141): a `lexc` dictionary
counts the fetched text with the lexc counter (`none` models the captured
`SystemExit` abort), anything else counts by URL with the dix counter
(`none` models the `-1` sentinel; `some n` the result's `stems` field). -/
def monoCount (extension : String) (fetchText : String → String)
    (lexcCount : String → Option Nat) (dixCount : String → Bool → Option Nat)
    (url : String) : Option Nat :=
  if extension == "lexc" then lexcCount (fetchText url) else dixCount url false

/-- `monoHistory` (lines 74-146) with the I/O as oracles: `oldFile` the parsed
persisted file (or `none` when absent/malformed), `files` the glob suffixes
for `fileExt`, `rawCommits` the decoded walker output (whose last line is the
empty sentinel popped before the loop). -/
def monoHistory (language : String) (oldFile : Option (List EntityData))
    (files : List String) (fetchText : String → String)
    (lexcCount : String → Option Nat) (dixCount : String → Bool → Option Nat)
    (rawCommits : List String) : Option EntityData :=
  match loadHistory oldFile language with
  | none => none
  | some history =>
    some { name := language,
           history := mergeCommits (monoCount (fileExt files) fetchText lexcCount dixCount)
             (monoURL language) history rawCommits.dropLast }

/-- `dixName` of `pairHistory` (lines 170-172): the `tat-kir` bidix is still
named according to the iso639-1 alias `tt-ky`. -/
def dixName (pairName : String) : String :=
  if pairName == "tat-kir" then "tt-ky" else pairName

/-- The tracked bidix filename `apertium-{0}.{0}.dix".format(dixName)` passed
to the walker (line 182). -/
def dixFileName (pairName : String) : String :=
  "apertium-" ++ dixName pairName ++ "." ++ dixName pairName ++ ".dix"

/-- Python `set(...)` of a list of strings.  Iteration order of a Python set
is unspecified; the model fixes first-occurrence order (`seen` accumulator),
which no further computation of the script depends on. -/
def pySetAux (seen : List String) : List String → List String
  | [] => []
  | a :: l =>
    if seen.contains a then pySetAux seen l
    else a :: pySetAux (seen ++ [a]) l

/-- `list(set(l))` / the membership set of `l`. -/
def pySet (l : List String) : List String := pySetAux [] l

/-- One iteration of `pairHistory`'s package loop (lines 152-230).  Outer
`none` is a crash (empty persisted JSON array leaves `history` unbound);
`some none` means the package was filtered out; `some (some e)` an emitted
entry.  `walk dirName trackedFile` is the decoded `git log` output. -/
def pairStep (language : String) (languages : List String)
    (oldFile : Option (List EntityData)) (walk : String → String → List String)
    (dixCount : String → Bool → Option Nat) (p : Package) :
    Option (Option EntityData) :=
  if !(hasInfixCL language.data p.name.data && matchesPairRE p.name) then some none
  else
    let pairName := rmPrefix p.name
    let pairList := splitDash pairName
    if !((pySet pairList).all (fun c => languages.contains c)) || pairName == "ita-srd"
    then some none
    else
      let commits := walk p.name (dixFileName pairName)
      match loadHistory oldFile pairName with
      | none => none
      | some history =>
        some (some { name := pairName,
                     history := mergeCommits (fun url => dixCount url true)
                       (pairURL pairName) history commits.dropLast })

/-- `pairHistory` (lines 149-231): the `langPackages` accumulation over all
packages, propagating a crash of any iteration. -/
def pairHistory (language : String) (languages : List String)
    (oldFile : Option (List EntityData)) (walk : String → String → List String)
    (dixCount : String → Bool → Option Nat) : List Package → Option (List EntityData)
  | [] => some []
  | p :: rest =>
    match pairStep language languages oldFile walk dixCount p with
    | none => none
    | some none => pairHistory language languages oldFile walk dixCount rest
    | some (some e) =>
      (pairHistory language languages oldFile walk dixCount rest).map (fun l => e :: l)

/-- The `Stems` lookup of `monoData` (lines 266-269): the loop leaves `stems`
unbound (`none`, a crash) when no statistic matches. -/
def findStems (stats : List Stat) : Option Nat :=
  (stats.find? (fun st => st.stat_kind == "Stems")).map Stat.value

/-- The `Entries` lookup of `pairData` (lines 376-379). -/
def findEntries (stats : List Stat) : Option Nat :=
  (stats.find? (fun st => st.stat_kind == "Entries")).map Stat.value

/-- The location lookup (lines 270-273 / 359-362): first topic whose
`rmPrefix` is in the location list; `none` (crash) when none matches. -/
def findLocation (locs : List String) (topics : List String) : Option String :=
  (topics.find? (fun t => locs.contains ( rmPrefix t))).map (fun t => rmPrefix t)

/-- `collections.Counter` over the author list, as emitted (lines 310-313):
distinct authors in first-occurrence order with their multiplicities. -/
def authorCounter (authors : List String) : List Contributor :=
  (pySetAux [] authors).map (fun u => { user := u, value := authors.count u })

/-- The state column index (lines 323-325): Celtic's state cell is in a
different column. -/
def stateCol (langFamily : String) : Nat :=
  if langFamily == "celtic" then 7 else 6

/-- The wiki state lookup of `monoData` (lines 327-331), over the rows after
the two header rows.  An empty row list leaves Python's `state` unbound and a
missing cell raises `IndexError`; both crashes are `none`.  The first row
whose name cell matches wins; no match yields `"unknown"` (assigned on the
last non-matching iteration). -/
def findState (rows : List WikiRow) (language : String) (col : Nat) : Option String :=
  match rows with
  | [] => none
  | _ :: _ =>
    match rows.find? (fun r => rmPrefix r.nameText == language) with
    | some row => (row.cells.get? col).map (fun s => strTrim s)
    | none => some "unknown"

/-- One iteration of `monoData`'s package loop (lines 237-341), with the
stats service, git author log, repository glob and wiki page as oracles. -/
def monoStep (languages : List String) (langFamily : String)
    (repoFiles : String → List String)
    (statsOracle : String → String → Option (List Stat))
    (authorsOracle : String → List String)
    (wikiOracle : String → List WikiRow) (p : Package) :
    Option (Option MonoEntry) :=
  if !(matchesMonoRE p.name && languages.contains ( rmPrefix p.name)) then some none
  else
    let language := rmPrefix p.name
    let fileType := fileTypeOf (fileExt (repoFiles language))
    match statsOracle p.name fileType with
    | none => none
    | some stats =>
      match findStems stats with
      | none => none
      | some stems =>
        match findLocation langLocations p.topics with
        | none => none
        | some location =>
          let contributors := authorCounter ((authorsOracle p.name).dropLast)
          let rows := wikiOracle ("http://wiki.apertium.org/wiki/" ++ langFamily
            ++ "_languages")
          match findState (rows.drop 2) language (stateCol langFamily) with
          | none => none
          | some state =>
            some (some { lang := language, state := state, stems := stems,
                         location := p.name ++ " (" ++ location ++ ")",
                         contributors := contributors })

/-- `monoData` (lines 234-343): accumulation over all packages, propagating
crashes (a raised stats-service exception or an unbound variable). -/
def monoData (languages : List String) (langFamily : String)
    (repoFiles : String → List String)
    (statsOracle : String → String → Option (List Stat))
    (authorsOracle : String → List String)
    (wikiOracle : String → List WikiRow) : List Package → Option (List MonoEntry)
  | [] => some []
  | p :: rest =>
    match monoStep languages langFamily repoFiles statsOracle authorsOracle wikiOracle p with
    | none => none
    | some none =>
      monoData languages langFamily repoFiles statsOracle authorsOracle wikiOracle rest
    | some (some e) =>
      (monoData languages langFamily repoFiles statsOracle authorsOracle wikiOracle rest).map
        (fun l => e :: l)

/-- One iteration of `pairData`'s package loop (lines 349-380). -/
def pairDataStep (languages : List String)
    (statsOracle : String → Option (List Stat)) (p : Package) :
    Option (Option PairEntry) :=
  if !(matchesPairRE p.name) then some none
  else
    let pairName := rmPrefix p.name
    let pairSet := pySet (splitDash pairName)
    if !(pairSet.all (fun c => languages.contains c)) || pairName == "ita-srd"
    then some none
    else
      match findLocation pairLocations p.topics with
      | none => none
      | some location =>
        match statsOracle pairName with
        | none => none
        | some stats =>
          match findEntries stats with
          | none => none
          | some stems =>
            some (some { langs := pairSet, location := location, stems := stems })

/-- `pairData` (lines 346-382). -/
def pairData (languages : List String) (statsOracle : String → Option (List Stat)) :
    List Package → Option (List PairEntry)
  | [] => some []
  | p :: rest =>
    match pairDataStep languages statsOracle p with
    | none => none
    | some none => pairData languages statsOracle rest
    | some (some e) => (pairData languages statsOracle rest).map (fun l => e :: l)

/-! ### Sample inputs used by concrete witnesses -/

/-- A fetch oracle returning empty content. -/
def noFetch : String → String := fun _ => ""

/-- A lexc counter that always aborts. -/
def noLexc : String → Option Nat := fun _ => none

/-- A dix counter that always returns the `-1` sentinel. -/
def noDix : String → Bool → Option Nat := fun _ _ => none

/-- A URL builder used for concrete merge instances. -/
def sampleURL : String → String → String := fun _ _ => ""

/-- A sample commit record. -/
def sampleRec : CommitRecord :=
  { sha := "a", author := "X", date := "2020-01-01T00:00:00Z", stems := 5 }

/-- A sample wiki row not matching any language in the witnesses. -/
def sampleRow : WikiRow := { nameText := "apertium-other", cells := [] }

/-! ### Lemmas on the merge loop -/

theorem seenSha_eq_true_iff (H : List CommitRecord) (s : String) :
    seenSha H s = true ↔ s ∈ H.map CommitRecord.sha := by
  rw [seenSha, List.any_eq_true]
  constructor
  · rintro ⟨cm, hcm, hbeq⟩
    exact List.mem_map.mpr ⟨cm, hcm, (eq_of_beq hbeq).symm⟩
  · intro h
    obtain ⟨cm, hcm, rfl⟩ := List.mem_map.mp h
    exact ⟨cm, hcm, by simp⟩

theorem mergeCommits_nil (c : String → Option Nat) (u : String → String → String)
    (H : List CommitRecord) : mergeCommits c u H [] = H := rfl

theorem mergeCommits_cons_seen {c : String → Option Nat} {u : String → String → String}
    {H : List CommitRecord} {line : String} (rest : List String)
    (h : seenSha H (shaOf line) = true) :
    mergeCommits c u H (line :: rest) = mergeCommits c u H rest := by
  simp [mergeCommits, h]

theorem mergeCommits_cons_fail {c : String → Option Nat} {u : String → String → String}
    {H : List CommitRecord} {line : String} (rest : List String)
    (h1 : seenSha H (shaOf line) = false)
    (h2 : c (u (shaOf line) (pathOf line)) = none) :
    mergeCommits c u H (line :: rest) = mergeCommits c u H rest := by
  simp [mergeCommits, h1, h2]

theorem mergeCommits_cons_app {c : String → Option Nat} {u : String → String → String}
    {H : List CommitRecord} {line : String} {n : Nat} (rest : List String)
    (h1 : seenSha H (shaOf line) = false)
    (h2 : c (u (shaOf line) (pathOf line)) = some n) :
    mergeCommits c u H (line :: rest) = mergeCommits c u (H ++ [recOf line n]) rest := by
  simp [mergeCommits, h1, h2]

theorem skippedCount_cons_seen {c : String → Option Nat} {u : String → String → String}
    {H : List CommitRecord} {line : String} (rest : List String)
    (h : seenSha H (shaOf line) = true) :
    skippedCount c u H (line :: rest) = 1 + skippedCount c u H rest := by
  simp [skippedCount, h]

theorem skippedCount_cons_fail {c : String → Option Nat} {u : String → String → String}
    {H : List CommitRecord} {line : String} (rest : List String)
    (h1 : seenSha H (shaOf line) = false)
    (h2 : c (u (shaOf line) (pathOf line)) = none) :
    skippedCount c u H (line :: rest) = 1 + skippedCount c u H rest := by
  simp [skippedCount, h1, h2]

theorem skippedCount_cons_app {c : String → Option Nat} {u : String → String → String}
    {H : List CommitRecord} {line : String} {n : Nat} (rest : List String)
    (h1 : seenSha H (shaOf line) = false)
    (h2 : c (u (shaOf line) (pathOf line)) = some n) :
    skippedCount c u H (line :: rest) = skippedCount c u (H ++ [recOf line n]) rest := by
  simp [skippedCount, h1, h2]

/-- A sha present in the history stays present: the merge only appends. -/
theorem sha_mem_mergeCommits (c : String → Option Nat) (u : String → String → String) :
    ∀ (L : List String) (H : List CommitRecord) (s : String),
      s ∈ H.map CommitRecord.sha → s ∈ (mergeCommits c u H L).map CommitRecord.sha := by
  intro L
  induction L with
  | nil => intro H s h; simpa [mergeCommits] using h
  | cons line rest ih =>
    intro H s h
    by_cases hs : seenSha H (shaOf line) = true
    · rw [mergeCommits_cons_seen rest hs]; exact ih H s h
    · have hs' : seenSha H (shaOf line) = false := by simpa using hs
      cases hc : c (u (shaOf line) (pathOf line)) with
      | none => rw [mergeCommits_cons_fail rest hs' hc]; exact ih H s h
      | some n =>
        rw [mergeCommits_cons_app rest hs' hc]
        exact ih _ s (by simp only [List.map_append, List.mem_append]; exact Or.inl h)

/-- Every walker line either ends up represented in the merged history (its
sha appears there) or its fetch-and-count failed. -/
theorem mergeCommits_covers (c : String → Option Nat) (u : String → String → String) :
    ∀ (L : List String) (H : List CommitRecord) (line : String), line ∈ L →
      shaOf line ∈ (mergeCommits c u H L).map CommitRecord.sha ∨
        c (u (shaOf line) (pathOf line)) = none := by
  intro L
  induction L with
  | nil => intro H line h; cases h
  | cons hd rest ih =>
    intro H line hmem
    by_cases hs : seenSha H (shaOf hd) = true
    · rw [mergeCommits_cons_seen rest hs]
      rcases List.mem_cons.mp hmem with rfl | h'
      · exact Or.inl (sha_mem_mergeCommits c u rest H _ ((seenSha_eq_true_iff _ _).mp hs))
      · exact ih H line h'
    · have hs' : seenSha H (shaOf hd) = false := by simpa using hs
      cases hc : c (u (shaOf hd) (pathOf hd)) with
      | none =>
        rw [mergeCommits_cons_fail rest hs' hc]
        rcases List.mem_cons.mp hmem with rfl | h'
        · exact Or.inr hc
        · exact ih H line h'
      | some n =>
        rw [mergeCommits_cons_app rest hs' hc]
        rcases List.mem_cons.mp hmem with rfl | h'
        · refine Or.inl (sha_mem_mergeCommits c u rest _ _ ?_)
          simp [recOf]
        · exact ih _ line h'

/-- If every walker line is already represented or fails to count, the merge
is the identity on the history. -/
theorem mergeCommits_no_new (c : String → Option Nat) (u : String → String → String)
    (H : List CommitRecord) :
    ∀ L : List String,
      (∀ line ∈ L, shaOf line ∈ H.map CommitRecord.sha ∨
        c (u (shaOf line) (pathOf line)) = none) →
      mergeCommits c u H L = H := by
  intro L
  induction L with
  | nil => intro _; rfl
  | cons line rest ih =>
    intro h
    have htail := fun l hl => h l (List.mem_cons_of_mem _ hl)
    rcases h line (List.mem_cons_self _ _) with hmem | hfail
    · rw [mergeCommits_cons_seen rest ((seenSha_eq_true_iff _ _).mpr hmem)]
      exact ih htail
    · by_cases hs : seenSha H (shaOf line) = true
      · rw [mergeCommits_cons_seen rest hs]; exact ih htail
      · rw [mergeCommits_cons_fail rest (by simpa using hs) hfail]; exact ih htail

/-- Re-merging the same walker list over the merged history changes nothing. -/
theorem mergeCommits_merge_self (c : String → Option Nat) (u : String → String → String)
    (H : List CommitRecord) (L : List String) :
    mergeCommits c u (mergeCommits c u H L) L = mergeCommits c u H L :=
  mergeCommits_no_new c u _ L (fun line hl => (mergeCommits_covers c u L H line hl).imp_left id)

/-- Bookkeeping: merged length plus skipped lines is prior length plus lines. -/
theorem mergeCommits_length (c : String → Option Nat) (u : String → String → String) :
    ∀ (L : List String) (H : List CommitRecord),
      (mergeCommits c u H L).length + skippedCount c u H L = H.length + L.length := by
  intro L
  induction L with
  | nil => intro H; simp [mergeCommits, skippedCount]
  | cons line rest ih =>
    intro H
    by_cases hs : seenSha H (shaOf line) = true
    · rw [mergeCommits_cons_seen rest hs, skippedCount_cons_seen rest hs]
      have := ih H
      simp only [List.length_cons]
      omega
    · have hs' : seenSha H (shaOf line) = false := by simpa using hs
      cases hc : c (u (shaOf line) (pathOf line)) with
      | none =>
        rw [mergeCommits_cons_fail rest hs' hc, skippedCount_cons_fail rest hs' hc]
        have := ih H
        simp only [List.length_cons]
        omega
      | some n =>
        rw [mergeCommits_cons_app rest hs' hc, skippedCount_cons_app rest hs' hc]
        have := ih (H ++ [recOf line n])
        simp only [List.length_append, List.length_cons, List.length_nil] at this ⊢
        omega

/-- The merge never introduces a duplicate sha over a duplicate-free history. -/
theorem mergeCommits_nodup (c : String → Option Nat) (u : String → String → String) :
    ∀ (L : List String) (H : List CommitRecord),
      (H.map CommitRecord.sha).Nodup → ((mergeCommits c u H L).map CommitRecord.sha).Nodup := by
  intro L
  induction L with
  | nil => intro H h; simpa [mergeCommits] using h
  | cons line rest ih =>
    intro H h
    by_cases hs : seenSha H (shaOf line) = true
    · rw [mergeCommits_cons_seen rest hs]; exact ih H h
    · have hs' : seenSha H (shaOf line) = false := by simpa using hs
      cases hc : c (u (shaOf line) (pathOf line)) with
      | none => rw [mergeCommits_cons_fail rest hs' hc]; exact ih H h
      | some n =>
        rw [mergeCommits_cons_app rest hs' hc]
        apply ih
        rw [List.map_append]
        refine h.append (by simp) ?_
        intro a ha hb
        have : a = shaOf line := by simpa [recOf] using hb
        subst this
        rw [(seenSha_eq_true_iff _ _).mpr ha] at hs'
        cases hs'

/-- A walker line whose fetch-and-count fails is a no-op of the merge: the
result is as if the line were absent, and all other lines are processed. -/
theorem mergeCommits_drop_failed (c : String → Option Nat) (u : String → String → String)
    (line : String) (hfail : c (u (shaOf line) (pathOf line)) = none) :
    ∀ (L₁ L₂ : List String) (H : List CommitRecord),
      mergeCommits c u H (L₁ ++ line :: L₂) = mergeCommits c u H (L₁ ++ L₂) := by
  intro L₁
  induction L₁ with
  | nil =>
    intro L₂ H
    simp only [List.nil_append]
    by_cases hs : seenSha H (shaOf line) = true
    · exact mergeCommits_cons_seen L₂ hs
    · exact mergeCommits_cons_fail L₂ (by simpa using hs) hfail
  | cons hd t ih =>
    intro L₂ H
    simp only [List.cons_append]
    by_cases hs : seenSha H (shaOf hd) = true
    · rw [mergeCommits_cons_seen _ hs, mergeCommits_cons_seen _ hs]; exact ih L₂ H
    · have hs' : seenSha H (shaOf hd) = false := by simpa using hs
      cases hc : c (u (shaOf hd) (pathOf hd)) with
      | none =>
        rw [mergeCommits_cons_fail _ hs' hc, mergeCommits_cons_fail _ hs' hc]
        exact ih L₂ H
      | some n =>
        rw [mergeCommits_cons_app _ hs' hc, mergeCommits_cons_app _ hs' hc]
        exact ih L₂ _

/-! ### Lemmas on the string helpers and the pair filters -/

theorem containsStr_iff (l : List String) (a : String) : l.contains a = true ↔ a ∈ l := by
  simp

theorem mem_pySetAux : ∀ (l seen : List String) (a : String),
    a ∈ l → a ∉ seen → a ∈ pySetAux seen l := by
  intro l
  induction l with
  | nil => intro seen a h; cases h
  | cons b t ih =>
    intro seen a hmem hseen
    have hseen' : seen.contains a = false := by
      cases hc : seen.contains a with
      | false => rfl
      | true => exact absurd ((containsStr_iff _ _).mp hc) hseen
    rcases List.mem_cons.mp hmem with rfl | h'
    · rw [pySetAux, hseen']
      simp
    · rw [pySetAux]
      cases hb : seen.contains b with
      | true => simpa using ih seen a h' hseen
      | false =>
        simp only [Bool.false_eq_true, if_false]
        by_cases hab : a = b
        · simp [hab]
        · refine List.mem_cons_of_mem _ (ih (seen ++ [b]) a h' ?_)
          simp only [List.mem_append, List.mem_singleton]
          rintro (h1 | h2)
          · exact hseen h1
          · exact hab h2

theorem mem_pySet (l : List String) (a : String) (h : a ∈ l) : a ∈ pySet l :=
  mem_pySetAux l [] a h (by simp)

theorem pySet_ne_nil (l : List String) (h : l ≠ []) : pySet l ≠ [] := by
  cases l with
  | nil => exact absurd rfl h
  | cons a t => rw [pySet, pySetAux]; simp

theorem splitOnChar_ne_nil (sep : Char) : ∀ l : List Char, splitOnChar sep l ≠ [] := by
  intro l
  cases l with
  | nil => simp [splitOnChar]
  | cons c rest =>
    rw [splitOnChar]
    by_cases hc : c = sep
    · simp [hc]
    · simp only [hc, if_false]
      cases h : splitOnChar sep rest <;> simp

theorem two_le_splitOnChar (sep : Char) : ∀ l : List Char, sep ∈ l →
    2 ≤ (splitOnChar sep l).length := by
  intro l
  induction l with
  | nil => intro h; cases h
  | cons c rest ih =>
    intro hmem
    rw [splitOnChar]
    by_cases hc : c = sep
    · simp only [hc, if_true, List.length_cons]
      have := splitOnChar_ne_nil sep rest
      cases h : splitOnChar sep rest with
      | nil => exact absurd h this
      | cons a t => simp
    · have hmem' : sep ∈ rest := by
        rcases List.mem_cons.mp hmem with rfl | h'
        · exact absurd rfl hc
        · exact h'
      have h2 := ih hmem'
      simp only [hc, if_false]
      cases h : splitOnChar sep rest with
      | nil => exact absurd h (splitOnChar_ne_nil sep rest)
      | cons a t =>
        rw [h] at h2
        simpa using h2

theorem splitDash_length (s : String) (h : '-' ∈ s.data) : 2 ≤ (splitDash s).length := by
  rw [splitDash, List.length_map]
  exact two_le_splitOnChar '-' s.data h

theorem splitDash_ne_nil (s : String) : splitDash s ≠ [] := by
  rw [splitDash]
  intro h
  exact splitOnChar_ne_nil '-' s.data (List.map_eq_nil_iff.mp h)

/-- A name matching the pair regular expression decomposes as `apertium-`
followed by a tail that contains a dash. -/
theorem matchesPairRE_elim (name : String) (h : matchesPairRE name = true) :
    '-' ∈ ( rmPrefix name).data := by
  rw [matchesPairRE, Bool.and_eq_true] at h
  obtain ⟨hpre, hrest⟩ := h
  have hp : "apertium-".data <+: name.data := List.isPrefixOf_iff_prefix.mp hpre
  obtain ⟨tail, htail⟩ := hp
  have hlen : ("apertium-".data).length = 9 := by decide
  have hdropEq : name.data.drop 9 = tail := by
    rw [← htail, ← hlen, List.drop_left]
  show '-' ∈ name.data.drop 9
  rw [hdropEq]
  simp only [hdropEq, Bool.and_eq_true] at hrest
  obtain ⟨-, hmatch⟩ := hrest
  have hsuff : tail.dropWhile isWordChar <:+ tail := List.dropWhile_suffix isWordChar
  cases hdw : tail.dropWhile isWordChar with
  | nil => rw [hdw] at hmatch; cases hmatch
  | cons c cs =>
    rw [hdw] at hmatch hsuff
    cases cs with
    | nil => exact Bool.noConfusion hmatch
    | cons d ds =>
      have hmatch' : (c == '-' && isWordChar d) = true := hmatch
      rw [Bool.and_eq_true] at hmatch'
      have hc : c = '-' := eq_of_beq hmatch'.1
      subst hc
      exact hsuff.subset (List.mem_cons_self _ _)

/-- Every entry emitted by `pairHistory` comes from one package's `pairStep`. -/
theorem pairHistory_mem (language : String) (languages : List String)
    (oldFile : Option (List EntityData)) (walk : String → String → List String)
    (dixCount : String → Bool → Option Nat) :
    ∀ (packages : List Package) (res : List EntityData),
      pairHistory language languages oldFile walk dixCount packages = some res →
      ∀ e ∈ res, ∃ p ∈ packages,
        pairStep language languages oldFile walk dixCount p = some (some e) := by
  intro packages
  induction packages with
  | nil =>
    intro res h e he
    rw [pairHistory] at h
    injection h with h
    subst h
    cases he
  | cons p rest ih =>
    intro res h e he
    cases hstep : pairStep language languages oldFile walk dixCount p with
    | none => rw [pairHistory, hstep] at h; cases h
    | some o =>
      cases o with
      | none =>
        rw [pairHistory, hstep] at h
        obtain ⟨q, hq, hq'⟩ := ih res h e he
        exact ⟨q, List.mem_cons_of_mem _ hq, hq'⟩
      | some e₀ =>
        rw [pairHistory, hstep] at h
        simp only [Option.map_eq_some'] at h
        obtain ⟨res', hres', rfl⟩ := h
        rcases List.mem_cons.mp he with rfl | he'
        · exact ⟨p, List.mem_cons_self _ _, hstep⟩
        · obtain ⟨q, hq, hq'⟩ := ih res' hres' e he'
          exact ⟨q, List.mem_cons_of_mem _ hq, hq'⟩

/-- What holds of a package whose `pairStep` emitted an entry. -/
theorem pairStep_some_elim (language : String) (languages : List String)
    (oldFile : Option (List EntityData)) (walk : String → String → List String)
    (dixCount : String → Bool → Option Nat) (p : Package) (e : EntityData)
    (h : pairStep language languages oldFile walk dixCount p = some (some e)) :
    matchesPairRE p.name = true ∧
    (pySet (splitDash ( rmPrefix p.name))).all (fun c => languages.contains c) = true ∧
    rmPrefix p.name ≠ "ita-srd" ∧
    e.name = rmPrefix p.name := by
  simp only [pairStep] at h
  split at h
  · exact absurd h (by simp)
  next hcond1 =>
    split at h
    · exact absurd h (by simp)
    next hcond2 =>
      simp only [Bool.not_eq_true, Bool.not_eq_false'] at hcond1
      rw [Bool.and_eq_true] at hcond1
      simp only [Bool.not_eq_true, Bool.or_eq_false_iff, Bool.not_eq_false'] at hcond2
      obtain ⟨hall, hne⟩ := hcond2
      refine ⟨hcond1.2, hall, beq_eq_false_iff_ne.mp hne, ?_⟩
      split at h
      · cases h
      next H hload =>
        injection h with h
        injection h with h
        subst h
        rfl

/-- Every entry emitted by `pairData` comes from one package's `pairDataStep`. -/
theorem pairData_mem (languages : List String) (so : String → Option (List Stat)) :
    ∀ (packages : List Package) (res : List PairEntry),
      pairData languages so packages = some res →
      ∀ d ∈ res, ∃ p ∈ packages, pairDataStep languages so p = some (some d) := by
  intro packages
  induction packages with
  | nil =>
    intro res h d hd
    rw [pairData] at h
    injection h with h
    subst h
    cases hd
  | cons p rest ih =>
    intro res h d hd
    cases hstep : pairDataStep languages so p with
    | none => rw [pairData, hstep] at h; cases h
    | some o =>
      cases o with
      | none =>
        rw [pairData, hstep] at h
        obtain ⟨q, hq, hq'⟩ := ih res h d hd
        exact ⟨q, List.mem_cons_of_mem _ hq, hq'⟩
      | some d₀ =>
        rw [pairData, hstep] at h
        simp only [Option.map_eq_some'] at h
        obtain ⟨res', hres', rfl⟩ := h
        rcases List.mem_cons.mp hd with rfl | hd'
        · exact ⟨p, List.mem_cons_self _ _, hstep⟩
        · obtain ⟨q, hq, hq'⟩ := ih res' hres' d hd'
          exact ⟨q, List.mem_cons_of_mem _ hq, hq'⟩

/-- What holds of a package whose `pairDataStep` emitted an entry. -/
theorem pairDataStep_some_elim (languages : List String) (so : String → Option (List Stat))
    (p : Package) (d : PairEntry)
    (h : pairDataStep languages so p = some (some d)) :
    matchesPairRE p.name = true ∧
    (pySet (splitDash ( rmPrefix p.name))).all (fun c => languages.contains c) = true ∧
    rmPrefix p.name ≠ "ita-srd" ∧
    d.langs = pySet (splitDash ( rmPrefix p.name)) := by
  simp only [pairDataStep] at h
  split at h
  · exact absurd h (by simp)
  next hcond1 =>
    split at h
    · exact absurd h (by simp)
    next hcond2 =>
      simp only [Bool.not_eq_true, Bool.not_eq_false'] at hcond1
      simp only [Bool.not_eq_true, Bool.or_eq_false_iff, Bool.not_eq_false'] at hcond2
      obtain ⟨hall, hne⟩ := hcond2
      refine ⟨hcond1, hall, beq_eq_false_iff_ne.mp hne, ?_⟩
      split at h
      · cases h
      next loc hloc =>
        split at h
        · cases h
        next stats hstats =>
          split at h
          · cases h
          next stems hstems =>
            injection h with h
            injection h with h
            subst h
            rfl

/-- The package `apertium-ita-srd` is always filtered out by `pairDataStep`. -/
theorem pairDataStep_ita_srd (languages : List String) (so : String → Option (List Stat))
    (topics : List String) :
    pairDataStep languages so { name := "apertium-ita-srd", topics := topics } = some none := by
  have h1 : matchesPairRE "apertium-ita-srd" = true := by decide
  have h2 : rmPrefix "apertium-ita-srd" = "ita-srd" := by decide
  simp only [pairDataStep, h1, h2]
  simp

theorem loadHistory_cons_self (e : EntityData) (rest : List EntityData) :
    loadHistory (some (e :: rest)) e.name = some e.history := by
  rw [loadHistory]
  simp [List.find?_cons]

/-! ### Claim theorems -/

/-- Claim C1: idempotence of the merge.  Re-running the merge over its own
output with the same walker list changes nothing; a second run whose walker
reports only shas already recorded returns the history unchanged (every
already-seen sha keeps its recorded author, date and stem count and nothing
is appended); and re-running `monoHistory` over a persisted file whose first
entry is the first run's output reproduces that output exactly. -/
theorem merge_idempotence :
    (∀ (c : String → Option Nat) (u : String → String → String)
       (H : List CommitRecord) (L : List String),
       mergeCommits c u (mergeCommits c u H L) L = mergeCommits c u H L) ∧
    (∀ (c : String → Option Nat) (u : String → String → String)
       (H : List CommitRecord) (L₂ : List String),
       (∀ line ∈ L₂, shaOf line ∈ H.map CommitRecord.sha) →
       mergeCommits c u H L₂ = H) ∧
    (∀ (language : String) (oldFile : Option (List EntityData))
       (rest : List EntityData) (files : List String) (ft : String → String)
       (lx : String → Option Nat) (dx : String → Bool → Option Nat)
       (raw : List String) (e : EntityData),
       monoHistory language oldFile files ft lx dx raw = some e →
       monoHistory language (some (e :: rest)) files ft lx dx raw = some e) := by
  refine ⟨mergeCommits_merge_self, ?_, ?_⟩
  · intro c u H L₂ h
    exact mergeCommits_no_new c u H L₂ (fun line hl => Or.inl (h line hl))
  · intro language oldFile rest files ft lx dx raw e h
    rw [monoHistory] at h
    cases hload : loadHistory oldFile language with
    | none => rw [hload] at h; cases h
    | some H₀ =>
      rw [hload] at h
      injection h with h
      subst h
      have hl2 := loadHistory_cons_self
        { name := language,
          history := mergeCommits (monoCount (fileExt files) ft lx dx)
            (monoURL language) H₀ raw.dropLast } rest
      rw [monoHistory, hl2]
      simp only [Option.some.injEq, EntityData.mk.injEq, true_and]
      exact mergeCommits_merge_self _ _ _ _

/-- Concrete instance of C1: one already-recorded commit line is skipped, and
`monoHistory` re-run over its own persisted output is the identity. -/
theorem merge_idempotence_witness :
    mergeCommits noLexc sampleURL [sampleRec] ["a<>X<>D<>p"] = [sampleRec] ∧
    monoHistory "zz" (some [{ name := "zz", history := [] }]) [] noFetch noLexc noDix [""]
      = some { name := "zz", history := [] } :=
  ⟨merge_idempotence.2.1 noLexc sampleURL [sampleRec] ["a<>X<>D<>p"] (by decide),
   merge_idempotence.2.2 "zz" none [] [] noFetch noLexc noDix [""]
     { name := "zz", history := [] } (by decide)⟩

/-- Claim C2, counterexample: a prior persisted history that already contains
the same sha twice is returned by the merge with the duplicate intact, so the
output is not duplicate-free for every input. -/
theorem merge_dup_prior_counterexample :
    monoHistory "zz" (some [{ name := "zz", history := [sampleRec, sampleRec] }])
      [] noFetch noLexc noDix [""]
      = some { name := "zz", history := [sampleRec, sampleRec] } ∧
    ¬ (([sampleRec, sampleRec].map CommitRecord.sha).Nodup) := by
  exact ⟨by decide, by decide⟩

/-- Claim C2 as amended: whenever the prior history is duplicate-free, the
merged history is duplicate-free — a record is appended only when its sha is
absent from the accumulated history. -/
theorem merge_preserves_nodup_shas :
    ∀ (c : String → Option Nat) (u : String → String → String)
      (H : List CommitRecord) (L : List String),
      (H.map CommitRecord.sha).Nodup →
      ((mergeCommits c u H L).map CommitRecord.sha).Nodup :=
  fun c u H L h => mergeCommits_nodup c u L H h

/-- Concrete instance of the amended C2. -/
theorem merge_preserves_nodup_shas_witness :
    (([sampleRec].map CommitRecord.sha).Nodup) ∧
    (((mergeCommits noLexc sampleURL [sampleRec] ["b<>Y<>D<>q"]).map
      CommitRecord.sha).Nodup) :=
  ⟨by decide, merge_preserves_nodup_shas noLexc sampleURL [sampleRec] ["b<>Y<>D<>q"]
    (by decide)⟩

/-- Claim C3: a commit whose fetch-and-count fails (the lexc counter aborts,
or the dix counter returns the `-1` sentinel, both modelled by the counter
oracle returning `none`) contributes no record, does not abort the merge, and
leaves the processing of every other walker line unchanged; `monoCount`
returns `none` exactly in the lexc-abort and dix-sentinel situations. -/
theorem skip_on_failure :
    (∀ (c : String → Option Nat) (u : String → String → String)
       (H : List CommitRecord) (L₁ L₂ : List String) (line : String),
       c (u (shaOf line) (pathOf line)) = none →
       mergeCommits c u H (L₁ ++ line :: L₂) = mergeCommits c u H (L₁ ++ L₂)) ∧
    (∀ (ft : String → String) (lx : String → Option Nat)
       (dx : String → Bool → Option Nat) (url : String),
       lx (ft url) = none → monoCount "lexc" ft lx dx url = none) ∧
    (∀ (ext : String) (ft : String → String) (lx : String → Option Nat)
       (dx : String → Bool → Option Nat) (url : String),
       ext ≠ "lexc" → dx url false = none → monoCount ext ft lx dx url = none) := by
  refine ⟨?_, ?_, ?_⟩
  · intro c u H L₁ L₂ line hfail
    exact mergeCommits_drop_failed c u line hfail L₁ L₂ H
  · intro ft lx dx url h
    simpa [monoCount] using h
  · intro ext ft lx dx url hne h
    have hb : (ext == "lexc") = false := beq_eq_false_iff_ne.mpr hne
    simpa [monoCount, hb] using h

/-- Concrete instance of C3: a failing line is dropped, and both failure
modes of `monoCount` yield `none`. -/
theorem skip_on_failure_witness :
    mergeCommits noLexc sampleURL [] (["a<>X<>D<>p"] ++ "f<>B<>D<>q" :: []) =
      mergeCommits noLexc sampleURL [] (["a<>X<>D<>p"] ++ []) ∧
    monoCount "lexc" noFetch noLexc noDix "u" = none ∧
    monoCount "dix" noFetch noLexc noDix "u" = none :=
  ⟨skip_on_failure.1 noLexc sampleURL [] ["a<>X<>D<>p"] [] "f<>B<>D<>q" (by decide),
   skip_on_failure.2.1 noFetch noLexc noDix "u" (by decide),
   skip_on_failure.2.2 "dix" noFetch noLexc noDix "u" (by decide) (by decide)⟩

/-- Claim C4, counterexample: with a non-empty prior history and a walker
output consisting of the sentinel alone, the merged history has length 1
while the number of real commits minus the skipped ones is 0 — the claimed
length equation omits the prior history's length. -/
theorem sentinel_length_counterexample :
    monoHistory "zz" (some [{ name := "zz", history := [sampleRec] }])
      [] noFetch noLexc noDix [""]
      = some { name := "zz", history := [sampleRec] } ∧
    skippedCount (monoCount (fileExt []) noFetch noLexc noDix) (monoURL "zz")
      [sampleRec] (List.dropLast [""]) = 0 ∧
    (1 : Nat) ≠ ([""] : List String).length - 1 - 0 := by
  exact ⟨by decide, by decide, by decide⟩

/-- Claim C4 as amended: the merge discards the sentinel last element before
processing, and the merged history's length is the prior history's length
plus the number of real commits minus those skipped as already-seen or as
counting failures. -/
theorem sentinel_discard_length :
    ∀ (c : String → Option Nat) (u : String → String → String)
      (H : List CommitRecord) (raw : List String),
      raw.getLast? = some "" →
      (mergeCommits c u H raw.dropLast).length + skippedCount c u H raw.dropLast
        = H.length + (raw.length - 1) ∧
      raw.dropLast.length = raw.length - 1 := by
  intro c u H raw hlast
  have hlen : raw.dropLast.length = raw.length - 1 := List.length_dropLast raw
  refine ⟨?_, hlen⟩
  rw [mergeCommits_length c u raw.dropLast H, hlen]

/-- Concrete instance of the amended C4. -/
theorem sentinel_discard_length_witness :
    (["a<>X<>D<>p", ""] : List String).getLast? = some "" ∧
    (mergeCommits noLexc sampleURL [] (List.dropLast ["a<>X<>D<>p", ""])).length
        + skippedCount noLexc sampleURL [] (List.dropLast ["a<>X<>D<>p", ""])
      = ([] : List CommitRecord).length + ((["a<>X<>D<>p", ""] : List String).length - 1) :=
  ⟨by decide,
   (sentinel_discard_length noLexc sampleURL [] ["a<>X<>D<>p", ""] (by decide)).1⟩

/-- Claim C5, counterexample: a monolingual repository whose dictionary file
has none of the three recognized extensions is classified `"unknown"` by
`fileExt`, yet the orchestrator does not skip it — `monoData` still produces
a data record for the entity. -/
theorem unknown_ext_counterexample :
    fileExt [".txt"] = "unknown" ∧
    monoData ["zzz"] "fam" (fun _ => [".txt"])
      (fun _ _ => some [{ stat_kind := "Stems", value := 7 }])
      (fun _ => ["Ann", ""]) (fun _ => [sampleRow, sampleRow, sampleRow])
      [{ name := "apertium-zzz", topics := ["apertium-languages"] }]
      = some [{ lang := "zzz", state := "unknown", stems := 7,
                location := "apertium-zzz (languages)",
                contributors := [{ user := "Ann", value := 1 }] }] := by
  exact ⟨by decide, by decide⟩

/-- Claim C5 as amended: an unrecognized monolingual dictionary extension is
classified `"unknown"` by `fileExt`, but the orchestrator does not treat it
as a skip: it derives the file-type label `"metamonodix"` and still produces
a data record for the entity whenever the stats, location and state lookups
succeed. -/
theorem unknown_ext_not_skipped :
    ∀ files : List String, files.all (fun s => !(recognizedExts.contains s)) = true →
      fileExt files = "unknown" ∧
      fileTypeOf (fileExt files) = "metamonodix" ∧
      (∀ (languages : List String) (fam : String) (rf : String → List String)
         (so : String → String → Option (List Stat)) (ao : String → List String)
         (wo : String → List WikiRow) (p : Package) (stats : List Stat)
         (stems : Nat) (loc st : String),
         (matchesMonoRE p.name && languages.contains ( rmPrefix p.name)) = true →
         rf ( rmPrefix p.name) = files →
         so p.name "metamonodix" = some stats →
         findStems stats = some stems →
         findLocation langLocations p.topics = some loc →
         findState ((wo ("http://wiki.apertium.org/wiki/" ++ fam ++ "_languages")).drop 2)
           ( rmPrefix p.name) (stateCol fam) = some st →
         monoStep languages fam rf so ao wo p
           = some (some { lang := rmPrefix p.name, state := st, stems := stems,
                          location := p.name ++ " (" ++ loc ++ ")",
                          contributors := authorCounter ((ao p.name).dropLast) })) := by
  intro files hall
  have hfind : files.find? (fun f => recognizedExts.contains f) = none := by
    rw [List.find?_eq_none]
    intro x hx
    rw [List.all_eq_true] at hall
    have hx' := hall x hx
    simp only [Bool.not_eq_true'] at hx'
    intro hc
    rw [hx'] at hc
    exact Bool.noConfusion hc
  have hext : fileExt files = "unknown" := by rw [fileExt, hfind]
  refine ⟨hext, by rw [hext]; decide, ?_⟩
  intro languages fam rf so ao wo p stats stems loc st hcond hrf hso hstems hloc hstate
  have hft : fileTypeOf (fileExt (rf ( rmPrefix p.name))) = "metamonodix" := by
    rw [hrf, hext]; decide
  simp only [monoStep, hcond, Bool.not_true, Bool.false_eq_true, if_false, hft, hso,
    hstems, hloc, hstate]

/-- Concrete instance of the amended C5. -/
theorem unknown_ext_not_skipped_witness :
    fileExt [".txt"] = "unknown" ∧
    fileTypeOf (fileExt [".txt"]) = "metamonodix" ∧
    monoStep ["zzz"] "fam" (fun _ => [".txt"])
      (fun _ _ => some [{ stat_kind := "Stems", value := 7 }])
      (fun _ => ["Ann", ""]) (fun _ => [sampleRow, sampleRow, sampleRow])
      { name := "apertium-zzz", topics := ["apertium-languages"] }
      = some (some { lang := rmPrefix "apertium-zzz", state := "unknown", stems := 7,
                     location := "apertium-zzz" ++ " (" ++ "languages" ++ ")",
                     contributors :=
                       authorCounter ((["Ann", ""] : List String).dropLast) }) :=
  ⟨(unknown_ext_not_skipped [".txt"] (by decide)).1,
   (unknown_ext_not_skipped [".txt"] (by decide)).2.1,
   (unknown_ext_not_skipped [".txt"] (by decide)).2.2 ["zzz"] "fam" (fun _ => [".txt"])
     (fun _ _ => some [{ stat_kind := "Stems", value := 7 }]) (fun _ => ["Ann", ""])
     (fun _ => [sampleRow, sampleRow, sampleRow])
     { name := "apertium-zzz", topics := ["apertium-languages"] }
     [{ stat_kind := "Stems", value := 7 }] 7 "languages" "unknown"
     (by decide) (by decide) (by decide) (by decide) (by decide) (by decide)⟩

/-- Claim C6: an absent or unparsable persisted file degrades to the empty
history instead of raising: `loadHistory` yields `[]`, `monoHistory` then
processes every walker commit starting from `[]`, and a pair package passing
the filters is likewise merged starting from `[]`. -/
theorem absent_prior_empty_history :
    (∀ nm : String, loadHistory none nm = some []) ∧
    (∀ (language : String) (files : List String) (ft : String → String)
       (lx : String → Option Nat) (dx : String → Bool → Option Nat)
       (raw : List String),
       monoHistory language none files ft lx dx raw
         = some { name := language,
                  history := mergeCommits (monoCount (fileExt files) ft lx dx)
                    (monoURL language) [] raw.dropLast }) ∧
    (∀ (language : String) (languages : List String)
       (walk : String → String → List String) (dx : String → Bool → Option Nat)
       (p : Package),
       (hasInfixCL language.data p.name.data && matchesPairRE p.name) = true →
       ((!(pySet (splitDash ( rmPrefix p.name))).all (fun c => languages.contains c))
          || ( rmPrefix p.name == "ita-srd")) = false →
       pairStep language languages none walk dx p
         = some (some { name := rmPrefix p.name,
                        history := mergeCommits (fun url => dx url true)
                          (pairURL ( rmPrefix p.name)) []
                          (walk p.name (dixFileName ( rmPrefix p.name))).dropLast })) := by
  refine ⟨fun _ => rfl, fun _ _ _ _ _ _ => rfl, ?_⟩
  intro language languages walk dx p h1 h2
  simp only [pairStep, h1, Bool.not_true, Bool.false_eq_true, if_false, h2, loadHistory]

/-- Concrete instance of C6 covering all three conjuncts. -/
theorem absent_prior_empty_history_witness :
    loadHistory none "zz" = some [] ∧
    monoHistory "zz" none [] noFetch noLexc noDix [""]
      = some { name := "zz",
               history := mergeCommits (monoCount (fileExt []) noFetch noLexc noDix)
                 (monoURL "zz") [] (List.dropLast [""]) } ∧
    pairStep "aaa" ["aaa", "bbb"] none (fun _ _ => [""]) noDix
      { name := "apertium-aaa-bbb", topics := [] }
      = some (some { name := rmPrefix "apertium-aaa-bbb",
                     history := mergeCommits (fun url => noDix url true)
                       (pairURL ( rmPrefix "apertium-aaa-bbb")) []
                       (List.dropLast [""]) }) :=
  ⟨absent_prior_empty_history.1 "zz",
   absent_prior_empty_history.2.1 "zz" [] noFetch noLexc noDix [""],
   absent_prior_empty_history.2.2 "aaa" ["aaa", "bbb"] (fun _ _ => [""]) noDix
     { name := "apertium-aaa-bbb", topics := [] } (by decide) (by decide)⟩

/-- Claim C7: whenever the language list contains both `ita` and `srd`, the
pair history orchestrator never emits an entry named `ita-srd`, and the pair
snapshot orchestrator's output is unchanged when every `apertium-ita-srd`
package is removed — it never emits an entry for that pair. -/
theorem ita_srd_excluded :
    ∀ languages : List String, "ita" ∈ languages → "srd" ∈ languages →
      (∀ (language : String) (oldFile : Option (List EntityData))
         (walk : String → String → List String) (dx : String → Bool → Option Nat)
         (packages : List Package) (res : List EntityData),
         pairHistory language languages oldFile walk dx packages = some res →
         ∀ e ∈ res, e.name ≠ "ita-srd") ∧
      (∀ (so : String → Option (List Stat)) (packages : List Package),
         pairData languages so packages
           = pairData languages so
               (packages.filter (fun p => !(p.name == "apertium-ita-srd")))) := by
  intro languages _ _
  constructor
  · intro language oldFile walk dx packages res h e he
    obtain ⟨p, _, hstep⟩ :=
      pairHistory_mem language languages oldFile walk dx packages res h e he
    obtain ⟨-, -, hne, hname⟩ :=
      pairStep_some_elim language languages oldFile walk dx p e hstep
    rw [hname]
    exact hne
  · intro so packages
    induction packages with
    | nil => rfl
    | cons p rest ih =>
      rw [List.filter_cons]
      by_cases hp : p.name = "apertium-ita-srd"
      · have hstep : pairDataStep languages so p = some none := by
          obtain ⟨nm, tp⟩ := p
          simp only at hp
          subst hp
          exact pairDataStep_ita_srd languages so tp
        have hdrop : (!(p.name == "apertium-ita-srd")) = false := by simp [hp]
        rw [hdrop]
        simp only [Bool.false_eq_true, if_false, pairData, hstep]
        exact ih
      · have hkeep : (!(p.name == "apertium-ita-srd")) = true := by simp [hp]
        rw [hkeep]
        simp only [if_true]
        cases hstep : pairDataStep languages so p with
        | none => simp only [pairData, hstep]
        | some o =>
          cases o with
          | none => simp only [pairData, hstep]; exact ih
          | some d => simp only [pairData, hstep]; rw [ih]

/-- Concrete instance of C7. -/
theorem ita_srd_excluded_witness :
    (∀ e ∈ ([] : List EntityData), e.name ≠ "ita-srd") ∧
    pairData ["ita", "srd"] (fun _ => none) [{ name := "apertium-ita-srd", topics := [] }]
      = pairData ["ita", "srd"] (fun _ => none)
          (([{ name := "apertium-ita-srd", topics := [] }] : List Package).filter
            (fun p => !(p.name == "apertium-ita-srd"))) :=
  ⟨(ita_srd_excluded ["ita", "srd"] (by decide) (by decide)).1 "ita" none
     (fun _ _ => [""]) noDix [{ name := "apertium-ita-srd", topics := [] }] []
     (by decide),
   (ita_srd_excluded ["ita", "srd"] (by decide) (by decide)).2 (fun _ => none)
     [{ name := "apertium-ita-srd", topics := [] }]⟩

/-- Claim C8: the pair `tat-kir`, and only that pair, resolves its tracked
dictionary filename through the legacy alias `tt-ky`
(`apertium-tt-ky.tt-ky.dix`); every other pair's filename is derived from the
pair name itself. -/
theorem tat_kir_alias :
    dixFileName "tat-kir" = "apertium-tt-ky.tt-ky.dix" ∧
    ∀ pairName : String, pairName ≠ "tat-kir" →
      dixFileName pairName = "apertium-" ++ pairName ++ "." ++ pairName ++ ".dix" := by
  refine ⟨by decide, ?_⟩
  intro pairName hp
  have hb : (pairName == "tat-kir") = false := beq_eq_false_iff_ne.mpr hp
  simp [dixFileName, dixName, hb]

/-- Concrete instance of C8 at a non-aliased pair. -/
theorem tat_kir_alias_witness :
    dixFileName "foo-bar" = "apertium-" ++ "foo-bar" ++ "." ++ "foo-bar" ++ ".dix" :=
  tat_kir_alias.2 "foo-bar" (by decide)

/-- Claim C9: the wiki state cell is read from column index 7 when, and only
when, the requested family is `celtic`; every other family reads column
index 6, and `findState` is invoked accordingly. -/
theorem celtic_column_override :
    stateCol "celtic" = 7 ∧
    (∀ f : String, f ≠ "celtic" → stateCol f = 6) ∧
    (∀ (rows : List WikiRow) (lang : String) (f : String),
       findState rows lang (stateCol f)
         = if f = "celtic" then findState rows lang 7 else findState rows lang 6) := by
  refine ⟨rfl, ?_, ?_⟩
  · intro f hf
    have hb : (f == "celtic") = false := beq_eq_false_iff_ne.mpr hf
    simp [stateCol, hb]
  · intro rows lang f
    by_cases hf : f = "celtic"
    · subst hf; simp [stateCol]
    · have hb : (f == "celtic") = false := beq_eq_false_iff_ne.mpr hf
      simp [stateCol, hb, hf]

/-- Concrete instance of C9 at a non-celtic family. -/
theorem celtic_column_override_witness : stateCol "turkic" = 6 :=
  celtic_column_override.2.1 "turkic" (by decide)

/-- Claim C10, counterexample: neither orchestrator emits exactly two codes
for every input.  A pair repository named with three codes all in the
language list is emitted by `pairHistory` as one entry naming three codes,
and a repository repeating one code (`apertium-aaa-aaa`) is emitted by
`pairData` with a deduplicated single-code `langs` list. -/
theorem pair_membership_counterexample :
    (pairHistory "aaa" ["aaa", "bbb", "ccc"] none (fun _ _ => [""]) noDix
       [{ name := "apertium-aaa-bbb-ccc", topics := [] }]
       = some [{ name := "aaa-bbb-ccc", history := [] }] ∧
     (splitDash "aaa-bbb-ccc").length ≠ 2) ∧
    (pairData ["aaa"] (fun _ => some [{ stat_kind := "Entries", value := 3 }])
       [{ name := "apertium-aaa-aaa", topics := ["apertium-trunk"] }]
       = some [{ langs := ["aaa"], location := "trunk", stems := 3 }] ∧
     (["aaa"] : List String).length ≠ 2) := by
  exact ⟨⟨by decide, by decide⟩, ⟨by decide, by decide⟩⟩

/-- Claim C10 as amended: every entry emitted by the pair history
orchestrator names at least two dash-separated codes, every entry emitted by
the pair snapshot orchestrator names at least one (its deduplicated `langs`
list is non-empty), and in both orchestrators every named code is a member of
the requested language list; a candidate with any code outside the list
produces no entry. -/
theorem pair_membership :
    (∀ (language : String) (languages : List String)
       (oldFile : Option (List EntityData)) (walk : String → String → List String)
       (dx : String → Bool → Option Nat) (packages : List Package)
       (res : List EntityData),
       pairHistory language languages oldFile walk dx packages = some res →
       ∀ e ∈ res, 2 ≤ (splitDash e.name).length ∧
         ∀ cd ∈ splitDash e.name, cd ∈ languages) ∧
    (∀ (languages : List String) (so : String → Option (List Stat))
       (packages : List Package) (res : List PairEntry),
       pairData languages so packages = some res →
       ∀ d ∈ res, d.langs ≠ [] ∧ ∀ cd ∈ d.langs, cd ∈ languages) := by
  constructor
  · intro language languages oldFile walk dx packages res h e he
    obtain ⟨p, _, hstep⟩ :=
      pairHistory_mem language languages oldFile walk dx packages res h e he
    obtain ⟨hre, hall, -, hname⟩ :=
      pairStep_some_elim language languages oldFile walk dx p e hstep
    rw [hname]
    constructor
    · exact splitDash_length _ (matchesPairRE_elim p.name hre)
    · intro cd hcd
      rw [List.all_eq_true] at hall
      have hc := hall cd (mem_pySet _ cd hcd)
      exact (containsStr_iff _ _).mp (by simpa using hc)
  · intro languages so packages res h d hd
    obtain ⟨p, _, hstep⟩ := pairData_mem languages so packages res h d hd
    obtain ⟨-, hall, -, hlangs⟩ := pairDataStep_some_elim languages so p d hstep
    rw [hlangs]
    refine ⟨pySet_ne_nil _ (splitDash_ne_nil _), ?_⟩
    intro cd hcd
    rw [List.all_eq_true] at hall
    have hc := hall cd hcd
    exact (containsStr_iff _ _).mp (by simpa using hc)

/-- Concrete instance of the amended C10. -/
theorem pair_membership_witness :
    2 ≤ (splitDash "aaa-bbb-ccc").length ∧
    ∀ cd ∈ splitDash "aaa-bbb-ccc", cd ∈ (["aaa", "bbb", "ccc"] : List String) :=
  pair_membership.1 "aaa" ["aaa", "bbb", "ccc"] none (fun _ _ => [""]) noDix
    [{ name := "apertium-aaa-bbb-ccc", topics := [] }]
    [{ name := "aaa-bbb-ccc", history := [] }] (by decide)
    { name := "aaa-bbb-ccc", history := [] } (by decide)

end Scraper
